import Mathlib

/-!
Verification of the smap struct-field merge engine.

The Go package merges values from a source struct into a destination struct
according to `smap` struct tags.  We give a shallow embedding: Go runtime
values become the inductive `GoVal`, Go types become `GoType`, reflection
lookups become total Lean functions, and errors become the inductive
`SmapError`.  The tag parser (`newSTag`), tag serializer (`STag.toString`),
input validation (`makeDstValue`, `makeSrcValue`) and the field-iteration
orchestrator (`mergeFields`) are translated directly from the repository
sources.  The final-version field resolver (`lookUpField`) and per-field
merger (`mergeField`) are modelled from the spec, as noted in their doc
comments, because only their tests, error declarations and callers appear
in the sources.
-/

namespace Smap

/-- Go types, as far as the engine inspects them.  Struct types are
identified by name (`named`); assignability in the model is type identity,
which is what `reflect.Type.AssignableTo` gives for the identical concrete
types the engine compares. -/
inductive GoType where
  | string : GoType
  | int : GoType
  | bool : GoType
  | ptr : GoType → GoType
  | named : String → GoType
  | map : GoType → GoType → GoType
  | slice : GoType → GoType
deriving DecidableEq, Repr

mutual
/-- Go runtime values.  A pointer carries its element type and an optional
pointee (`none` models a nil pointer).  A struct value carries its type
name, its fields in declaration order, and its zero-argument methods.
Collections carry their element/key types so that `typeOf` needs no
recursion. -/
inductive GoVal where
  | string : String → GoVal
  | int : Int → GoVal
  | bool : Bool → GoVal
  | ptr : GoType → Option GoVal → GoVal
  | struct : String → List GoField → List GoMethod → GoVal
  | map : GoType → GoType → List (GoVal × GoVal) → GoVal
  | slice : GoType → List GoVal → GoVal

/-- A struct field: name, the `smap` tag lookup result (`none` when the
field carries no smap key), and the current value. -/
inductive GoField where
  | mk : String → Option String → GoVal → GoField

/-- A zero-argument method: name, returned value, and optional returned
error message (modelling a `(value, error)` accessor). -/
inductive GoMethod where
  | mk : String → GoVal → Option String → GoMethod
end

/-- Name of a struct field. -/
def GoField.name : GoField → String
  | .mk n _ _ => n

/-- Tag of a struct field. -/
def GoField.tag : GoField → Option String
  | .mk _ t _ => t

/-- Value of a struct field. -/
def GoField.val : GoField → GoVal
  | .mk _ _ v => v

/-- Runtime type of a value, mirroring `reflect.Value.Type`. -/
def typeOf : GoVal → GoType
  | .string _ => .string
  | .int _ => .int
  | .bool _ => .bool
  | .ptr t _ => .ptr t
  | .struct n _ _ => .named n
  | .map kt vt _ => .map kt vt
  | .slice t _ => .slice t

/-- Rendering of a type name, mirroring `reflect.Type.String`. -/
def goTypeString : GoType → String
  | .string => "string"
  | .int => "int"
  | .bool => "bool"
  | .ptr t => "*" ++ goTypeString t
  | .named n => n
  | .map kt vt => "map[" ++ goTypeString kt ++ "]" ++ goTypeString vt
  | .slice t => "[]" ++ goTypeString t

mutual
/-- Mirrors `reflect.Value.IsZero`: zero string, zero int, false bool,
nil pointer, struct with all fields zero.  Collections in the model are
always non-nil, hence never zero. -/
def isZero : GoVal → Bool
  | .string s => s == ""
  | .int i => i == 0
  | .bool b => b == false
  | .ptr _ p => p.isNone
  | .struct _ fs _ => isZeroFields fs
  | .map _ _ _ => false
  | .slice _ _ => false

/-- All fields of a struct are zero. -/
def isZeroFields : List GoField → Bool
  | [] => true
  | .mk _ _ v :: rest => isZero v && isZeroFields rest
end

/-! ### Go string primitives

The tag grammar uses single-character separators, so `strings.Split`,
`strings.SplitN(·, ·, 2)`, `strings.Join` and `strings.TrimSpace` are
modelled at the character-list level by structurally recursive functions
(the library versions are not kernel-reducible). -/

/-- Split a character list at every occurrence of `sep`; like Go's
`strings.Split`, the empty input yields one empty group. -/
def splitChars (sep : Char) : List Char → List (List Char)
  | [] => [[]]
  | c :: rest =>
    let r := splitChars sep rest
    if c = sep then [] :: r
    else match r with
      | [] => [[c]]
      | g :: gs => (c :: g) :: gs

/-- Split at the first occurrence of `sep` only, like Go's
`strings.SplitN(s, sep, 2)`: the part before it, and the rest after it
(`none` when `sep` does not occur). -/
def splitN2Chars (sep : Char) : List Char → List Char × Option (List Char)
  | [] => ([], none)
  | c :: rest =>
    if c = sep then ([], some rest)
    else
      let r := splitN2Chars sep rest
      (c :: r.1, r.2)

/-- Join groups with `sep` between them, like Go's `strings.Join`. -/
def joinChars (sep : Char) : List (List Char) → List Char
  | [] => []
  | [g] => g
  | g :: gs => g ++ sep :: joinChars sep gs

/-- Drop whitespace from both ends, like Go's `strings.TrimSpace`. -/
def trimChars (cs : List Char) : List Char :=
  ((cs.dropWhile Char.isWhitespace).reverse.dropWhile Char.isWhitespace).reverse

/-- String-level wrapper of `splitChars`. -/
def goSplit (s : String) (sep : Char) : List String :=
  (splitChars sep s.data).map String.mk

/-- String-level wrapper of `splitN2Chars`. -/
def goSplitN2 (s : String) (sep : Char) : String × Option String :=
  let r := splitN2Chars sep s.data
  (String.mk r.1, r.2.map String.mk)

/-- String-level wrapper of `joinChars`. -/
def goJoin (sep : Char) (xs : List String) : String :=
  String.mk (joinChars sep (xs.map String.data))

/-- String-level wrapper of `trimChars`. -/
def goTrim (s : String) : String :=
  String.mk (trimChars s.data)

/-- Parse a decimal digit sequence, used for slice indices, like
`strconv.Atoi` restricted to unsigned input. -/
def parseNatChars : List Char → Option Nat
  | [] => none
  | cs => parseNatAux cs 0
where
  /-- Accumulate digits left to right. -/
  parseNatAux : List Char → Nat → Option Nat
    | [], acc => some acc
    | c :: rest, acc =>
      if c.isDigit then parseNatAux rest (acc * 10 + (c.toNat - 48))
      else none

/-- Parse an optionally signed decimal integer, like `strconv.Atoi`. -/
def parseIntChars : List Char → Option Int
  | '-' :: rest => (parseNatChars rest).map fun n => -(n : Int)
  | '+' :: rest => (parseNatChars rest).map fun n => (n : Int)
  | cs => (parseNatChars cs).map fun n => (n : Int)

/-! ### Errors

Mirrors the sentinel errors of `errors.go` and the `MergeFieldError`
wrapper (child error, tag text, destination type name, source type name).
`errKeepLooking` is the internal control-flow error; `accessorErr` and
`hydrateErr` carry messages propagated from a method or from the injected
hydration collaborator. -/

/-- Error values of the engine. -/
inductive SmapError where
  | errDstInvalid : SmapError
  | errSrcInvalid : SmapError
  | errTagInvalid : SmapError
  | errFieldTypesIncompatible : SmapError
  | errTagEmpty : SmapError
  | errTagPathNotFound : SmapError
  | errTagPathEmpty : SmapError
  | errTagPathInvalidKeyType : SmapError
  | errKeepLooking : SmapError
  | accessorErr : String → SmapError
  | hydrateErr : String → SmapError
  | mergeFieldError : SmapError → String → String → String → SmapError
deriving DecidableEq, Repr

/-! ### Tag parsing (translated from `tag.go`) -/

/-- A parsed smap tag: ordered path alternatives (each a list of
segments) and a list of options; mirrors `sTag`. -/
structure STag where
  pathsParts : List (List String)
  opts : List String
deriving DecidableEq, Repr

/-- Mirrors `tagPathParts.String`: segments joined by `"."`. -/
def tagPathPartsString (p : List String) : String :=
  goJoin '.' p

/-- Mirrors `tagPathsParts.String`: rendered paths joined by `"|"`. -/
def tagPathsPartsString (ps : List (List String)) : String :=
  goJoin '|' (ps.map tagPathPartsString)

/-- Mirrors `sTag.String`: paths, then `","` and the comma-joined options
when any are present. -/
def STag.toString (t : STag) : String :=
  if t.opts.isEmpty then tagPathsPartsString t.pathsParts
  else tagPathsPartsString t.pathsParts ++ "," ++ goJoin ',' t.opts

/-- Mirrors `sTag.HasHydrate`. -/
def STag.hasHydrate (t : STag) : Bool :=
  t.opts.contains "hydrate"

/-- Mirrors `sTag.HasSkipZero`. -/
def STag.hasSkipZero (t : STag) : Bool :=
  t.opts.contains "skipzero"

/-- The paths loop of `newSTag`: skip empty path candidates, split each
survivor on `"."`, fail on any empty segment. -/
def parsePaths : List String → Except SmapError (List (List String))
  | [] => .ok []
  | path :: rest =>
    if path = "" then parsePaths rest
    else
      let segments := goSplit path '.'
      if segments.any (fun seg => seg = "") then .error .errTagInvalid
      else
        match parsePaths rest with
        | .error e => .error e
        | .ok r => .ok (segments :: r)

/-- The options loop of `newSTag`: trim each option, fail on an empty
option token. -/
def trimOpts : List String → Except SmapError (List String)
  | [] => .ok []
  | opt :: rest =>
    let t := goTrim opt
    if t = "" then .error .errTagInvalid
    else
      match trimOpts rest with
      | .error e => .error e
      | .ok r => .ok (t :: r)

/-- Mirrors `newSTag`: split at the first comma, trim and parse the paths
segment, fail with `errTagEmpty` when no path survives, then parse the
options segment when present. -/
def newSTag (tag : String) : Except SmapError STag :=
  let parts := goSplitN2 tag ','
  let pathsStr := goTrim parts.1
  match parsePaths (goSplit pathsStr '|') with
  | .error e => .error e
  | .ok pathsParts =>
    if pathsParts.isEmpty then .error .errTagEmpty
    else
      match parts.2 with
      | none => .ok ⟨pathsParts, []⟩
      | some optsStr =>
        match trimOpts (goSplit (goTrim optsStr) ',') with
        | .error e => .error e
        | .ok opts => .ok ⟨pathsParts, opts⟩

/-! ### Path resolution -/

/-- A Go identifier is exported when its first character is upper case. -/
def isExported (name : String) : Bool :=
  match name.data with
  | [] => false
  | c :: _ => c.isUpper

/-- Look up a struct field by name. -/
def findField (name : String) : List GoField → Option GoVal
  | [] => none
  | .mk n _ v :: rest => if n = name then some v else findField name rest

/-- Look up a zero-argument method by name. -/
def findMethod (name : String) : List GoMethod → Option (GoVal × Option String)
  | [] => none
  | .mk n v e :: rest => if n = name then some (v, e) else findMethod name rest

/-- Equality on the primitive values used as map keys; converted keys are
always primitives, so comparison of composites never arises. -/
def keyEq : GoVal → GoVal → Bool
  | .string a, .string b => a == b
  | .int a, .int b => a == b
  | .bool a, .bool b => a == b
  | _, _ => false

/-- Look up a map entry under `keyEq`. -/
def lookupEntry (key : GoVal) : List (GoVal × GoVal) → Option GoVal
  | [] => none
  | (k, v) :: rest => if keyEq k key then some v else lookupEntry key rest

/-- Remove one level of indirection; `none` signals a nil pointer. -/
def derefOnce : GoVal → Option GoVal
  | .ptr _ none => none
  | .ptr _ (some v) => some v
  | v => some v

/-- Modelled from the spec: the per-segment traversal loop of the final
`lookUpField` (spec section 4.2), whose Go body is absent from the
sources (only its unit tests, its callers and the sentinel errors
`errKeepLooking`, `ErrTagPathNotFound` and `ErrTagPathInvalidKeyType`
remain).  Per segment: a nil pointer stops the alternative with
`errKeepLooking`; one level of indirection is removed; a struct resolves
an exported field, else a zero-argument method (terminal, its error
propagated verbatim), else the final segment is `errTagPathNotFound` and
a non-final one `errKeepLooking`; a map converts the segment to its key
type (string pass-through, integer parse; other key kinds are
`errTagPathInvalidKeyType`) and an absent key is `errKeepLooking`; a
slice indexes by a parsed in-bounds natural and anything else is
`errKeepLooking`; any other shape is `errKeepLooking`.  After the last
segment a non-nil pointer leaf is dereferenced once. -/
def lookUpLoop : GoVal → List String → Except SmapError GoVal
  | current, [] =>
    match current with
    | .ptr _ (some v) => .ok v
    | v => .ok v
  | current, part :: rest =>
    match derefOnce current with
    | none => .error .errKeepLooking
    | some (.struct _ fields methods) =>
      match (if isExported part then findField part fields else none) with
      | some v => lookUpLoop v rest
      | none =>
        match findMethod part methods with
        | some (v, none) => .ok v
        | some (_, some msg) => .error (.accessorErr msg)
        | none =>
          if rest.isEmpty then .error .errTagPathNotFound
          else .error .errKeepLooking
    | some (.map kt _ entries) =>
      match kt with
      | .string =>
        match lookupEntry (.string part) entries with
        | some v => lookUpLoop v rest
        | none => .error .errKeepLooking
      | .int =>
        match parseIntChars part.data with
        | some i =>
          match lookupEntry (.int i) entries with
          | some v => lookUpLoop v rest
          | none => .error .errKeepLooking
        | none => .error .errKeepLooking
      | _ => .error .errTagPathInvalidKeyType
    | some (.slice _ elems) =>
      match parseNatChars part.data with
      | some i =>
        match elems.get? i with
        | some v => lookUpLoop v rest
        | none => .error .errKeepLooking
      | none => .error .errKeepLooking
    | some _ => .error .errKeepLooking

/-- Modelled from the spec: the final `lookUpField` (spec section 4.2).
An empty path is `errTagPathEmpty` (as the final unit test requires);
otherwise traversal starts at the source value. -/
def lookUpField (srcVal : GoVal) (pathParts : List String) : Except SmapError GoVal :=
  match pathParts with
  | [] => .error .errTagPathEmpty
  | _ => lookUpLoop srcVal pathParts

/-! ### Per-field merging -/

/-- Modelled from the spec: the selection loop of the final `mergeField`
(spec section 4.3).  Alternatives are tried in tag order; a resolution
ending in `errKeepLooking` is skipped; any other resolution error is
terminal and wrapped in a `mergeFieldError` carrying the failing path,
the destination type name and an empty source type name (as in the
sources at unnamed/part_000 lines 80-88); a resolved value is skipped
when `skipzero` is set and the value is zero, and otherwise adopted,
overwriting any previously adopted candidate. -/
def selectValue (srcVal : GoVal) (skipzero : Bool) (dstTypeName : String) :
    List (List String) → Option GoVal → Except SmapError (Option GoVal)
  | [], acc => .ok acc
  | pathParts :: rest, acc =>
    match lookUpField srcVal pathParts with
    | .error .errKeepLooking => selectValue srcVal skipzero dstTypeName rest acc
    | .error e => .error (.mergeFieldError e (tagPathPartsString pathParts) dstTypeName "")
    | .ok v =>
      if skipzero && isZero v then selectValue srcVal skipzero dstTypeName rest acc
      else selectValue srcVal skipzero dstTypeName rest (some v)

/-- Modelled from the spec: the hydration step of the final `mergeField`
(spec section 4.4, matching unnamed/part_000 lines 93-102).  When the
tag has `hydrate` and the selected value is a string, the injected
hydration collaborator replaces it with a value of the destination type;
its failure is terminal and carries the tag text and the type names. -/
def hydrateStep (hydrate : GoType → String → Except String GoVal)
    (tag : STag) (dstTy : GoType) (v : GoVal) : Except SmapError GoVal :=
  if tag.hasHydrate then
    match v with
    | .string s =>
      match hydrate dstTy s with
      | .error msg =>
        .error (.mergeFieldError (.hydrateErr msg) tag.toString (goTypeString dstTy)
          (goTypeString (typeOf v)))
      | .ok hv => .ok hv
    | _ => .ok v
  else .ok v

/-- Modelled from the spec: the final `mergeField` (spec sections
4.3-4.4), whose Go body is absent from the sources (the surface tests,
the callers and earlier revisions remain).  A defensive empty-tag check
first (as in unnamed/part_000 lines 75-77); then the selection loop;
when no candidate was adopted the field is left unchanged with no error
(the final surface tests require this, where earlier revisions in the
sources returned `ErrTagInvalid`); then hydration; then the value's type
must equal the destination field's type (modelling `AssignableTo`), a
failure carrying the tag text and both type names (as in
unnamed/part_000 lines 104-106); only then is the new value produced.
The result is `some` of the assigned value, or `none` for "leave the
field as it is". -/
def mergeField (hydrate : GoType → String → Except String GoVal)
    (dstFieldVal : GoVal) (srcVal : GoVal) (tag : STag) :
    Except SmapError (Option GoVal) :=
  let dstTy := typeOf dstFieldVal
  if tag.pathsParts.isEmpty then
    .error (.mergeFieldError .errTagEmpty "" (goTypeString dstTy) "")
  else
    match selectValue srcVal tag.hasSkipZero (goTypeString dstTy) tag.pathsParts none with
    | .error e => .error e
    | .ok none => .ok none
    | .ok (some v) =>
      match hydrateStep hydrate tag dstTy v with
      | .error e => .error e
      | .ok fv =>
        if typeOf fv = dstTy then .ok (some fv)
        else
          .error (.mergeFieldError .errFieldTypesIncompatible tag.toString
            (goTypeString dstTy) (goTypeString (typeOf fv)))

/-! ### Orchestration (translated from the sources) -/

/-- The processing of one destination field as `mergeFields` performs it:
`none` when it succeeds (skipped or merged), `some e` for the first
error.  It depends only on the field itself and the source value, so it
is position-independent. -/
def fieldFailure (hydrate : GoType → String → Except String GoVal)
    (srcVal : GoVal) : GoField → Option SmapError
  | .mk _ none _ => none
  | .mk _ (some raw) v =>
    match newSTag raw with
    | .error e => some e
    | .ok tag =>
      match mergeField hydrate v srcVal tag with
      | .error e => some e
      | .ok _ => none

/-- The field loop of `mergeFields`: fields without an smap tag are
skipped; for tagged fields the tag is parsed and `mergeField` applied;
the loop stops at the first error, leaving that field and all later
fields unchanged, while earlier assignments are kept (Go mutates the
destination in place). -/
def mergeFieldsLoop (hydrate : GoType → String → Except String GoVal)
    (srcVal : GoVal) : List GoField → List GoField × Option SmapError
  | [] => ([], none)
  | .mk name tagOpt v :: rest =>
    match tagOpt with
    | none =>
      let r := mergeFieldsLoop hydrate srcVal rest
      (.mk name none v :: r.1, r.2)
    | some raw =>
      match newSTag raw with
      | .error e => (.mk name (some raw) v :: rest, some e)
      | .ok tag =>
        match mergeField hydrate v srcVal tag with
        | .error e => (.mk name (some raw) v :: rest, some e)
        | .ok none =>
          let r := mergeFieldsLoop hydrate srcVal rest
          (.mk name (some raw) v :: r.1, r.2)
        | .ok (some nv) =>
          let r := mergeFieldsLoop hydrate srcVal rest
          (.mk name (some raw) nv :: r.1, r.2)

/-- Mirrors `mergeFields`: iterate the destination struct's fields in
declaration order.  The result is the updated struct value together with
the first error, if any. -/
def mergeFields (hydrate : GoType → String → Except String GoVal)
    (dstVal srcVal : GoVal) : GoVal × Option SmapError :=
  match dstVal with
  | .struct n fields methods =>
    let r := mergeFieldsLoop hydrate srcVal fields
    (.struct n r.1 methods, r.2)
  | v => (v, none)

/-- Mirrors `makeDstValue`: the destination must be a non-nil pointer to
a struct; its pointee is returned. -/
def makeDstValue (dst : GoVal) : Except SmapError GoVal :=
  match dst with
  | .ptr _ (some v) =>
    match v with
    | .struct _ _ _ => .ok v
    | _ => .error .errDstInvalid
  | _ => .error .errDstInvalid

/-- Mirrors `makeSrcValue`: the source must be a struct or a non-nil
pointer to one; one level of indirection is removed. -/
def makeSrcValue (src : GoVal) : Except SmapError GoVal :=
  match src with
  | .ptr _ none => .error .errSrcInvalid
  | .ptr _ (some v) =>
    match v with
    | .struct _ _ _ => .ok v
    | _ => .error .errSrcInvalid
  | .struct n fields methods => .ok (.struct n fields methods)
  | _ => .error .errSrcInvalid

/-- Write the merged struct back through the destination pointer,
modelling Go's in-place mutation of `dst`'s pointee. -/
def setPointee : GoVal → GoVal → GoVal
  | .ptr t (some _), nv => .ptr t (some nv)
  | d, _ => d

/-- Mirrors `Merge`: validate the destination and the source, then merge
fields.  The first component is the destination value after the call
(unchanged whenever validation fails), the second the returned error. -/
def Merge (hydrate : GoType → String → Except String GoVal)
    (dst src : GoVal) : GoVal × Option SmapError :=
  match makeDstValue dst with
  | .error e => (dst, some e)
  | .ok dstVal =>
    match makeSrcValue src with
    | .error e => (dst, some e)
    | .ok srcVal =>
      let r := mergeFields hydrate dstVal srcVal
      (setPointee dst r.1, r.2)

/-! ### Shape predicates for validation -/

/-- The destination shape `Merge` accepts: a non-nil pointer to a struct. -/
def validDstShape : GoVal → Bool
  | .ptr _ (some (.struct _ _ _)) => true
  | _ => false

/-- The source shape `Merge` accepts: a struct, or a non-nil pointer to
one. -/
def validSrcShape : GoVal → Bool
  | .struct _ _ _ => true
  | .ptr _ (some (.struct _ _ _)) => true
  | _ => false

/-! ### Derived views of the selection loop -/

/-- The values the selection loop adopts, in tag order: for each
alternative, its resolved value unless the resolution failed or the
value is skipped under `skipzero`. -/
def resolvedCandidates (srcVal : GoVal) (sz : Bool) (ps : List (List String)) : List GoVal :=
  ps.filterMap fun p =>
    match lookUpField srcVal p with
    | .ok v => if sz && isZero v then none else some v
    | .error _ => none

/-- Folding adoption over candidates: each candidate overwrites the
accumulator, so the result is the last candidate when any exists. -/
def lastAdopted : List GoVal → Option GoVal → Option GoVal
  | [], acc => acc
  | v :: rest, _ => lastAdopted rest (some v)

/-- The value a single destination field holds after its successful
processing: unchanged when untagged, unchanged when no candidate was
adopted, and the merged value otherwise. -/
def fieldMergeResult (hyd : GoType → String → Except String GoVal)
    (srcVal : GoVal) : GoField → GoField
  | .mk name none v => .mk name none v
  | .mk name (some raw) v =>
    match newSTag raw with
    | .error _ => .mk name (some raw) v
    | .ok tag =>
      match mergeField hyd v srcVal tag with
      | .ok (some nv) => .mk name (some raw) nv
      | _ => .mk name (some raw) v

/-! ### Well-formedness of parsed tags

Every tag `newSTag` accepts satisfies these invariants; they are what
makes re-serialization faithful. -/

/-- A parsed segment: non-empty, and free of the three separators. -/
def SegOK (s : String) : Prop :=
  s ≠ "" ∧ ∀ c ∈ s.data, c ≠ '.' ∧ c ≠ '|' ∧ c ≠ ','

/-- A parsed path alternative: non-empty, all segments well formed. -/
def AltOK (alt : List String) : Prop :=
  alt ≠ [] ∧ ∀ s ∈ alt, SegOK s

/-- A parsed option: non-empty, comma-free, and already trimmed. -/
def OptOK (o : String) : Prop :=
  o ≠ "" ∧ (∀ c ∈ o.data, c ≠ ',') ∧ trimChars o.data = o.data

/-- Well-formedness of a parsed tag. -/
def WfSTag (t : STag) : Prop :=
  t.pathsParts ≠ [] ∧ (∀ alt ∈ t.pathsParts, AltOK alt) ∧ ∀ o ∈ t.opts, OptOK o

/-! ### Concrete example values used by the witness theorems -/

/-- A trivial hydration collaborator that always fails; merges whose tags
do not request hydration never invoke it. -/
def exHyd : GoType → String → Except String GoVal :=
  fun _ _ => .error "no hydration"

/-- A source whose `EV.Data` map has an entry `"other"` but no `"key"`. -/
def exSrcMissingKey : GoVal :=
  .struct "Sources"
    [.mk "EV" none (.ptr (.named "EnvVars") (some (.struct "EnvVars"
      [.mk "Data" none (.map .string .string [(.string "other", .string "value")])] [])))] []

/-- A destination whose only field is tagged `"EV.Data.key"` and holds a
pre-merge value. -/
def exDstMapConfig : GoVal :=
  .ptr (.named "ConfigMap") (some (.struct "ConfigMap"
    [.mk "Value" (some "EV.Data.key") (.string "old")] []))

/-- A source whose `InnerPtr` field is a nil pointer. -/
def exSrcNilPtr : GoVal :=
  .struct "Outer" [.mk "InnerPtr" none (.ptr (.named "Inner") none)] []

/-- A destination whose only field is tagged `"EV.Count|FV.Count,skipzero"`
and holds the pre-merge value `7`. -/
def exDstSkipZero : GoVal :=
  .ptr (.named "ConfigSkipZero") (some (.struct "ConfigSkipZero"
    [.mk "Count" (some "EV.Count|FV.Count,skipzero") (.int 7)] []))

/-- A source whose `EV.Count` and `FV.Count` are both zero. -/
def exSrcZeroCounts : GoVal :=
  .struct "Sources"
    [.mk "EV" none (.ptr (.named "EnvVars") (some (.struct "EnvVars"
        [.mk "Count" none (.int 0)] []))),
     .mk "FV" none (.ptr (.named "FileVals") (some (.struct "FileVals"
        [.mk "Count" none (.int 0)] [])))] []

/-- A source whose fields `A` and `B` hold `"x"` and `"y"`. -/
def exSrcAB : GoVal :=
  .struct "S" [.mk "A" none (.string "x"), .mk "B" none (.string "y")] []

/-- A destination whose only field is tagged `"A|B"`. -/
def exDstAB : GoVal :=
  .ptr (.named "ConfigAB") (some (.struct "ConfigAB"
    [.mk "F" (some "A|B") (.string "")] []))

/-- A destination whose only field is an int tagged `"FV.Extra"`, a path
that resolves to a string. -/
def exDstIntExtra : GoVal :=
  .ptr (.named "ConfigExtra") (some (.struct "ConfigExtra"
    [.mk "Extra" (some "FV.Extra") (.int 0)] []))

/-- A source whose `FV.Extra` is the string `"file-extra"`. -/
def exSrcExtra : GoVal :=
  .struct "Sources"
    [.mk "FV" none (.ptr (.named "FileVals") (some (.struct "FileVals"
      [.mk "Extra" none (.string "file-extra")] [])))] []

/-- A two-field destination: `AISvcURL` (merges successfully from
`exSrcMismatch`) followed by `Extra`, an int field tagged with a path
resolving to a string, which fails the assignability check. -/
def exDstMismatch : GoVal :=
  .ptr (.named "ConfigMismatch") (some (.struct "ConfigMismatch"
    [.mk "AISvcURL" (some "EV.AISvcURL") (.string ""),
     .mk "Extra" (some "FV.Extra") (.int 0)] []))

/-- A source for `exDstMismatch`: `EV.AISvcURL` resolves to a string and
`FV.Extra` resolves to a string (incompatible with the int field). -/
def exSrcMismatch : GoVal :=
  .struct "Sources"
    [.mk "EV" none (.ptr (.named "EnvVars") (some (.struct "EnvVars"
        [.mk "AISvcURL" none (.string "env-url")] []))),
     .mk "FV" none (.ptr (.named "FileVals") (some (.struct "FileVals"
        [.mk "Extra" none (.string "file-extra")] [])))] []

/-! ### General lemmas -/

/-- A tag accepted by `newSTag` has at least one path alternative. -/
theorem newSTag_ok_nonempty {raw : String} {tag : STag}
    (h : newSTag raw = .ok tag) : tag.pathsParts ≠ [] := by
  simp only [newSTag] at h
  split at h
  · cases h
  · split at h
    · cases h
    · rename_i hne
      split at h
      · cases h
        simpa using hne
      · split at h
        · cases h
        · cases h
          simpa using hne

/-- When every alternative is skipped (a not-applicable resolution, or a
zero value under `skipzero`), the selection loop keeps its accumulator. -/
theorem selectValue_skip_all (srcVal : GoVal) (sz : Bool) (d : String) :
    ∀ (ps : List (List String)) (acc : Option GoVal),
      (∀ p ∈ ps, lookUpField srcVal p = .error .errKeepLooking ∨
        ∃ v, lookUpField srcVal p = .ok v ∧ sz = true ∧ isZero v = true) →
      selectValue srcVal sz d ps acc = .ok acc
  | [], _, _ => rfl
  | p :: ps, acc, h => by
    rcases h p (by simp) with hk | ⟨v, hv, hsz, hz⟩
    · rw [selectValue, hk]
      exact selectValue_skip_all srcVal sz d ps acc fun q hq => h q (by simp [hq])
    · rw [selectValue, hv]
      simp only [hsz, hz, Bool.and_self, if_true]
      exact selectValue_skip_all srcVal true d ps acc fun q hq => by
        subst hsz; exact h q (by simp [hq])

/-- When no alternative hits a terminal resolution error, the selection
loop succeeds and returns the adoption fold over the resolved,
non-skipped candidates. -/
theorem selectValue_eq_lastAdopted (srcVal : GoVal) (sz : Bool) (d : String) :
    ∀ (ps : List (List String)) (acc : Option GoVal),
      (∀ p ∈ ps, ∀ e, lookUpField srcVal p = .error e → e = .errKeepLooking) →
      selectValue srcVal sz d ps acc =
        .ok (lastAdopted (resolvedCandidates srcVal sz ps) acc)
  | [], _, _ => rfl
  | p :: ps, acc, h => by
    have hrec := fun (acc' : Option GoVal) =>
      selectValue_eq_lastAdopted srcVal sz d ps acc' fun q hq => h q (by simp [hq])
    cases hlk : lookUpField srcVal p with
    | error e =>
      have he := h p (by simp) e hlk
      subst he
      rw [selectValue, hlk]
      rw [resolvedCandidates, List.filterMap_cons]
      simp only [hlk]
      exact hrec acc
    | ok v =>
      rw [selectValue, hlk]
      rw [resolvedCandidates, List.filterMap_cons]
      simp only [hlk]
      cases hz : sz && isZero v with
      | true => simp only [hz, if_true]; exact hrec acc
      | false => simp only [hz, Bool.false_eq_true, if_false]; exact hrec (some v)

/-- The adoption fold yields the last candidate whenever one exists. -/
theorem lastAdopted_of_getLast : ∀ (l : List GoVal) (acc : Option GoVal) (v : GoVal),
    l.getLast? = some v → lastAdopted l acc = some v
  | [], _, _, h => by simp at h
  | [w], _, v, h => by
    simp [List.getLast?] at h
    subst h
    rfl
  | w :: x :: l, acc, v, h => by
    rw [List.getLast?_cons_cons] at h
    exact lastAdopted_of_getLast (x :: l) (some w) v h

/-- The field loop stops when its head field fails, leaving every field,
the failing one included, unchanged and returning the failure. -/
theorem mergeFieldsLoop_fail_head (hyd : GoType → String → Except String GoVal)
    (srcVal : GoVal) (name raw : String) (v : GoVal) (rest : List GoField)
    (e : SmapError)
    (h : fieldFailure hyd srcVal (.mk name (some raw) v) = some e) :
    mergeFieldsLoop hyd srcVal (.mk name (some raw) v :: rest) =
      (.mk name (some raw) v :: rest, some e) := by
  rw [mergeFieldsLoop]
  simp only [fieldFailure] at h
  cases hp : newSTag raw with
  | error e' =>
    rw [hp] at h
    dsimp only at h ⊢
    injection h with h
    subst h
    rfl
  | ok tag =>
    rw [hp] at h
    dsimp only at h ⊢
    cases hm : mergeField hyd v srcVal tag with
    | error e' =>
      rw [hm] at h
      dsimp only at h ⊢
      injection h with h
      subst h
      rfl
    | ok o =>
      rw [hm] at h
      dsimp only at h
      cases h

/-- Processing preserves a field's name and tag. -/
theorem fieldMergeResult_name_tag (hyd : GoType → String → Except String GoVal)
    (srcVal : GoVal) (f : GoField) :
    (fieldMergeResult hyd srcVal f).name = f.name ∧
    (fieldMergeResult hyd srcVal f).tag = f.tag := by
  cases f with
  | mk name tagOpt v =>
    cases tagOpt with
    | none => exact ⟨rfl, rfl⟩
    | some raw =>
      rw [fieldMergeResult]
      cases newSTag raw with
      | error e => exact ⟨rfl, rfl⟩
      | ok tag =>
        dsimp only
        cases mergeField hyd v srcVal tag with
        | error e => exact ⟨rfl, rfl⟩
        | ok o => cases o <;> exact ⟨rfl, rfl⟩

/-- A failing field is always a tagged one. -/
theorem fieldFailure_some_shape (hyd : GoType → String → Except String GoVal)
    (srcVal : GoVal) (f : GoField) (e : SmapError)
    (h : fieldFailure hyd srcVal f = some e) :
    ∃ name raw v, f = .mk name (some raw) v := by
  cases f with
  | mk n t v =>
    cases t with
    | none => simp [fieldFailure] at h
    | some r => exact ⟨n, r, v, rfl⟩

/-- When its head field processes without error, the field loop writes
the processed head and continues with the remaining fields. -/
theorem mergeFieldsLoop_cons_ok (hyd : GoType → String → Except String GoVal)
    (srcVal : GoVal) (f : GoField) (rest : List GoField)
    (h : fieldFailure hyd srcVal f = none) :
    mergeFieldsLoop hyd srcVal (f :: rest) =
      (fieldMergeResult hyd srcVal f :: (mergeFieldsLoop hyd srcVal rest).1,
        (mergeFieldsLoop hyd srcVal rest).2) := by
  cases f with
  | mk name tagOpt v =>
    cases tagOpt with
    | none =>
      rw [mergeFieldsLoop, fieldMergeResult]
    | some raw =>
      rw [mergeFieldsLoop, fieldMergeResult]
      simp only [fieldFailure] at h
      cases hp : newSTag raw with
      | error e =>
        rw [hp] at h
        dsimp only at h
        cases h
      | ok tag =>
        rw [hp] at h
        dsimp only at h ⊢
        cases hm : mergeField hyd v srcVal tag with
        | error e =>
          rw [hm] at h
          dsimp only at h
          cases h
        | ok o => cases o <;> dsimp only

/-- The field loop returns as many fields as it was given. -/
theorem mergeFieldsLoop_length (hyd : GoType → String → Except String GoVal)
    (srcVal : GoVal) :
    ∀ fields : List GoField,
      (mergeFieldsLoop hyd srcVal fields).1.length = fields.length
  | [] => rfl
  | f :: rest => by
    cases hf : fieldFailure hyd srcVal f with
    | some e =>
      obtain ⟨name, raw, v, rfl⟩ := fieldFailure_some_shape hyd srcVal f e hf
      rw [mergeFieldsLoop_fail_head hyd srcVal name raw v rest e hf]
    | none =>
      rw [mergeFieldsLoop_cons_ok hyd srcVal f rest hf]
      simp [mergeFieldsLoop_length hyd srcVal rest]

/-- The field loop keeps every field at its position, with its name and
tag. -/
theorem mergeFieldsLoop_index (hyd : GoType → String → Except String GoVal)
    (srcVal : GoVal) :
    ∀ (fields : List GoField) (i : Nat) (f : GoField), fields[i]? = some f →
      ∃ f', (mergeFieldsLoop hyd srcVal fields).1[i]? = some f' ∧
        f'.name = f.name ∧ f'.tag = f.tag
  | [], i, f, h => by simp at h
  | g :: rest, i, f, h => by
    cases hf : fieldFailure hyd srcVal g with
    | some e =>
      obtain ⟨name, raw, v, rfl⟩ := fieldFailure_some_shape hyd srcVal g e hf
      rw [mergeFieldsLoop_fail_head hyd srcVal name raw v rest e hf]
      exact ⟨f, h, rfl, rfl⟩
    | none =>
      rw [mergeFieldsLoop_cons_ok hyd srcVal g rest hf]
      cases i with
      | zero =>
        rw [List.getElem?_cons_zero] at h
        injection h with h
        subst h
        exact ⟨fieldMergeResult hyd srcVal g, by simp,
          (fieldMergeResult_name_tag hyd srcVal g).1,
          (fieldMergeResult_name_tag hyd srcVal g).2⟩
      | succ n =>
        rw [List.getElem?_cons_succ] at h
        obtain ⟨f', hf', hn, ht⟩ := mergeFieldsLoop_index hyd srcVal rest n f h
        exact ⟨f', by simpa using hf', hn, ht⟩

/-- The field loop never modifies a field that carries no smap tag. -/
theorem mergeFieldsLoop_untagged (hyd : GoType → String → Except String GoVal)
    (srcVal : GoVal) :
    ∀ (fields : List GoField) (i : Nat) (name : String) (v : GoVal),
      fields[i]? = some (.mk name none v) →
      (mergeFieldsLoop hyd srcVal fields).1[i]? = some (.mk name none v)
  | [], i, name, v, h => by simp at h
  | g :: rest, i, name, v, h => by
    cases hf : fieldFailure hyd srcVal g with
    | some e =>
      obtain ⟨n', raw, w, rfl⟩ := fieldFailure_some_shape hyd srcVal g e hf
      rw [mergeFieldsLoop_fail_head hyd srcVal n' raw w rest e hf]
      exact h
    | none =>
      rw [mergeFieldsLoop_cons_ok hyd srcVal g rest hf]
      cases i with
      | zero =>
        rw [List.getElem?_cons_zero] at h
        injection h with h
        subst h
        simp [fieldMergeResult]
      | succ n =>
        rw [List.getElem?_cons_succ] at h
        simpa using mergeFieldsLoop_untagged hyd srcVal rest n name v h

/-- When the first failing field sits at position `k`, the loop returns
the processed prefix before `k` followed by the fields from `k` on
unchanged, together with that field's error: the merge stops there and
earlier assignments stay in place. -/
theorem mergeFieldsLoop_first_error (hyd : GoType → String → Except String GoVal)
    (srcVal : GoVal) :
    ∀ (fields : List GoField) (k : Nat) (fk : GoField) (e : SmapError),
      (∀ j fj, j < k → fields[j]? = some fj → fieldFailure hyd srcVal fj = none) →
      fields[k]? = some fk → fieldFailure hyd srcVal fk = some e →
      mergeFieldsLoop hyd srcVal fields =
        ((mergeFieldsLoop hyd srcVal (fields.take k)).1 ++ fields.drop k, some e)
  | [], k, fk, e, _, hk, _ => by simp at hk
  | g :: rest, k, fk, e, hpre, hk, hf => by
    cases k with
    | zero =>
      have hgf : fieldFailure hyd srcVal g = some e := by
        rw [List.getElem?_cons_zero] at hk
        rw [Option.some.inj hk]
        exact hf
      obtain ⟨name, raw, v, hg⟩ := fieldFailure_some_shape hyd srcVal g e hgf
      subst hg
      rw [mergeFieldsLoop_fail_head hyd srcVal name raw v rest e hgf]
      rfl
    | succ n =>
      have hg : fieldFailure hyd srcVal g = none :=
        hpre 0 g (Nat.succ_pos n) (by rw [List.getElem?_cons_zero])
      rw [mergeFieldsLoop_cons_ok hyd srcVal g rest hg]
      rw [mergeFieldsLoop_first_error hyd srcVal rest n fk e
        (fun j fj hj hjf => hpre (j + 1) fj (Nat.succ_lt_succ hj)
          (by rwa [List.getElem?_cons_succ]))
        (by rwa [List.getElem?_cons_succ] at hk) hf]
      rw [List.take_succ_cons, List.drop_succ_cons,
        mergeFieldsLoop_cons_ok hyd srcVal g (rest.take n) hg]
      simp

/-! ### Lemmas about the character-level string primitives -/

/-- Splitting never produces an empty group list. -/
theorem splitChars_ne_nil (sep : Char) : ∀ cs : List Char, splitChars sep cs ≠ []
  | [] => by simp [splitChars]
  | c :: rest => by
    simp only [splitChars]
    split
    · simp
    · split <;> simp

/-- Groups produced by splitting do not contain the separator. -/
theorem not_sep_of_mem_splitChars (sep : Char) :
    ∀ cs g : List Char, g ∈ splitChars sep cs → sep ∉ g
  | [], g, hg => by
    simp [splitChars] at hg
    subst hg
    simp
  | c :: rest, g, hg => by
    simp only [splitChars] at hg
    split at hg
    · rcases List.mem_cons.mp hg with hg | hg
      · subst hg; simp
      · exact not_sep_of_mem_splitChars sep rest g hg
    · rename_i hcs
      split at hg
      · simp at hg
        subst hg
        simp
        exact fun h => hcs h.symm
      · rename_i g' gs hr
        rcases List.mem_cons.mp hg with hg | hg
        · subst hg
          have hg' : g' ∈ splitChars sep rest := by
            rw [hr]; exact List.mem_cons_self _ _
          have hs := not_sep_of_mem_splitChars sep rest g' hg'
          intro hm
          rcases List.mem_cons.mp hm with hm | hm
          · exact hcs hm.symm
          · exact hs hm
        · have : g ∈ splitChars sep rest := by
            rw [hr]; exact List.mem_cons_of_mem _ hg
          exact not_sep_of_mem_splitChars sep rest g this

/-- Characters of a split group come from the split input. -/
theorem mem_of_mem_splitChars (sep : Char) :
    ∀ (cs g : List Char) (a : Char), g ∈ splitChars sep cs → a ∈ g → a ∈ cs
  | [], g, a, hg, ha => by
    simp [splitChars] at hg
    subst hg
    simp at ha
  | c :: rest, g, a, hg, ha => by
    simp only [splitChars] at hg
    split at hg
    · rcases List.mem_cons.mp hg with hg | hg
      · subst hg; simp at ha
      · exact List.mem_cons_of_mem _ (mem_of_mem_splitChars sep rest g a hg ha)
    · split at hg
      · simp at hg
        subst hg
        simp at ha
        subst ha
        exact List.mem_cons_self _ _
      · rename_i g' gs hr
        rcases List.mem_cons.mp hg with hg | hg
        · subst hg
          rcases List.mem_cons.mp ha with ha | ha
          · subst ha; exact List.mem_cons_self _ _
          · have hg' : g' ∈ splitChars sep rest := by
              rw [hr]; exact List.mem_cons_self _ _
            exact List.mem_cons_of_mem _ (mem_of_mem_splitChars sep rest g' a hg' ha)
        · have : g ∈ splitChars sep rest := by
            rw [hr]; exact List.mem_cons_of_mem _ hg
          exact List.mem_cons_of_mem _ (mem_of_mem_splitChars sep rest g a this ha)

/-- Splitting a separator-free list yields that list as the only group. -/
theorem splitChars_of_not_mem (sep : Char) :
    ∀ cs : List Char, sep ∉ cs → splitChars sep cs = [cs]
  | [], _ => rfl
  | c :: rest, h => by
    have hc : ¬c = sep := fun hc => h (hc ▸ List.mem_cons_self c rest)
    simp only [splitChars]
    rw [splitChars_of_not_mem sep rest fun hm => h (List.mem_cons_of_mem c hm)]
    simp [hc]

/-- Splitting after a separator-free prefix peels that prefix off. -/
theorem splitChars_append (sep : Char) :
    ∀ g cs : List Char, sep ∉ g →
      splitChars sep (g ++ sep :: cs) = g :: splitChars sep cs
  | [], cs, _ => by simp [splitChars]
  | c :: g, cs, h => by
    have hc : ¬c = sep := fun hc => h (hc ▸ List.mem_cons_self _ _)
    have hg : sep ∉ g := fun hm => h (List.mem_cons_of_mem _ hm)
    simp only [List.cons_append, splitChars, List.append_eq,
      splitChars_append sep g cs hg, hc, if_false]

/-- Defining equation of `joinChars` on a singleton. -/
theorem joinChars_singleton (sep : Char) (g : List Char) : joinChars sep [g] = g := rfl

/-- Defining equation of `joinChars` on two or more groups. -/
theorem joinChars_cons_cons (sep : Char) (g g' : List Char) (gs : List (List Char)) :
    joinChars sep (g :: g' :: gs) = g ++ sep :: joinChars sep (g' :: gs) := rfl

/-- Splitting inverts joining when no group contains the separator. -/
theorem splitChars_joinChars (sep : Char) :
    ∀ gs : List (List Char), gs ≠ [] → (∀ g ∈ gs, sep ∉ g) →
      splitChars sep (joinChars sep gs) = gs
  | [], h, _ => absurd rfl h
  | [g], _, hall => by
    rw [joinChars_singleton]
    exact splitChars_of_not_mem sep g (hall g (by simp))
  | g :: g' :: gs, _, hall => by
    rw [joinChars_cons_cons, splitChars_append sep g _ (hall g (by simp)),
      splitChars_joinChars sep (g' :: gs) (by simp)
        fun x hx => hall x (List.mem_cons_of_mem _ hx)]

/-- Splitting at the first separator of a separator-free list finds
none. -/
theorem splitN2Chars_of_not_mem (sep : Char) :
    ∀ cs : List Char, sep ∉ cs → splitN2Chars sep cs = (cs, none)
  | [], _ => rfl
  | c :: rest, h => by
    have hc : ¬c = sep := fun hc => h (hc ▸ List.mem_cons_self _ _)
    simp only [splitN2Chars, hc, if_false]
    rw [splitN2Chars_of_not_mem sep rest fun hm => h (List.mem_cons_of_mem _ hm)]

/-- Splitting at the first separator after a separator-free prefix. -/
theorem splitN2Chars_append (sep : Char) :
    ∀ as bs : List Char, sep ∉ as →
      splitN2Chars sep (as ++ sep :: bs) = (as, some bs)
  | [], bs, _ => by simp [splitN2Chars]
  | a :: as, bs, h => by
    have ha : ¬a = sep := fun hc => h (hc ▸ List.mem_cons_self _ _)
    have has : sep ∉ as := fun hm => h (List.mem_cons_of_mem _ hm)
    simp only [List.cons_append, splitN2Chars, List.append_eq, ha, if_false,
      splitN2Chars_append sep as bs has]

/-- The part before the first separator does not contain it. -/
theorem not_mem_splitN2Chars_fst (sep : Char) :
    ∀ cs : List Char, sep ∉ (splitN2Chars sep cs).1
  | [] => by simp [splitN2Chars]
  | c :: rest => by
    simp only [splitN2Chars]
    by_cases hc : c = sep
    · simp [hc]
    · simp only [hc, if_false]
      intro hm
      rcases List.mem_cons.mp hm with hm | hm
      · exact hc hm.symm
      · exact not_mem_splitN2Chars_fst sep rest hm

/-- Characters survive `dropWhile`. -/
theorem mem_of_mem_dropWhile (p : Char → Bool) :
    ∀ (l : List Char) (a : Char), a ∈ l.dropWhile p → a ∈ l
  | [], a, h => by simp [List.dropWhile] at h
  | c :: l, a, h => by
    rw [List.dropWhile_cons] at h
    split at h
    · exact List.mem_cons_of_mem _ (mem_of_mem_dropWhile p l a h)
    · exact h

/-- Characters of the trimmed list come from the original. -/
theorem mem_of_mem_trimChars :
    ∀ (cs : List Char) (a : Char), a ∈ trimChars cs → a ∈ cs := by
  intro cs a h
  rw [trimChars] at h
  rw [List.mem_reverse] at h
  have h := mem_of_mem_dropWhile _ _ _ h
  rw [List.mem_reverse] at h
  exact mem_of_mem_dropWhile _ _ _ h

/-- `dropWhile` leaves a list whose head fails the predicate alone. -/
theorem dropWhile_of_head_false (p : Char → Bool) (l : List Char) (a : Char)
    (hh : l.head? = some a) (hp : p a = false) : l.dropWhile p = l := by
  cases l with
  | nil => rfl
  | cons c t =>
    rw [List.head?_cons] at hh
    injection hh with hh
    subst hh
    rw [List.dropWhile_cons, hp]
    simp

/-- A list whose ends are not whitespace is its own trim. -/
theorem trimChars_of_clean (cs : List Char) (a b : Char)
    (hh : cs.head? = some a) (ha : a.isWhitespace = false)
    (hl : cs.getLast? = some b) (hb : b.isWhitespace = false) :
    trimChars cs = cs := by
  rw [trimChars, dropWhile_of_head_false _ cs a hh ha,
    dropWhile_of_head_false _ cs.reverse b (by rw [List.head?_reverse]; exact hl) hb,
    List.reverse_reverse]

/-- The trimmed list does not start with whitespace. -/
theorem trimChars_head_not_ws (cs : List Char) (a : Char)
    (h : (trimChars cs).head? = some a) : a.isWhitespace = false := by
  rw [trimChars] at h
  rw [List.head?_reverse] at h
  have hsfx : ∃ pre, pre ++ (cs.dropWhile Char.isWhitespace).reverse.dropWhile Char.isWhitespace
      = (cs.dropWhile Char.isWhitespace).reverse := by
    obtain ⟨pre, hpre⟩ := List.dropWhile_suffix
      (l := (cs.dropWhile Char.isWhitespace).reverse) (p := Char.isWhitespace)
    exact ⟨pre, hpre⟩
  obtain ⟨pre, hpre⟩ := hsfx
  have hne : (cs.dropWhile Char.isWhitespace).reverse.dropWhile Char.isWhitespace ≠ [] := by
    intro hnil
    rw [hnil] at h
    simp at h
  have h2 : ((cs.dropWhile Char.isWhitespace).reverse.dropWhile Char.isWhitespace).getLast? =
      (cs.dropWhile Char.isWhitespace).reverse.getLast? := by
    conv_rhs => rw [← hpre]
    rw [List.getLast?_append_of_ne_nil pre hne]
  rw [h2, List.getLast?_reverse] at h
  have hw := List.head?_dropWhile_not Char.isWhitespace cs
  rw [h] at hw
  simpa using hw

/-- The trimmed list does not end with whitespace. -/
theorem trimChars_getLast_not_ws (cs : List Char) (a : Char)
    (h : (trimChars cs).getLast? = some a) : a.isWhitespace = false := by
  rw [trimChars, List.getLast?_reverse] at h
  have := List.head?_dropWhile_not Char.isWhitespace
    (cs.dropWhile Char.isWhitespace).reverse
  rw [h] at this
  simpa using this

/-- Trimming is idempotent. -/
theorem trimChars_trimChars (cs : List Char) :
    trimChars (trimChars cs) = trimChars cs := by
  cases h : trimChars cs with
  | nil => rfl
  | cons a t =>
    have hh : (trimChars cs).head? = some a := by rw [h]; rfl
    obtain ⟨b, hb⟩ : ∃ b, (trimChars cs).getLast? = some b := by
      rw [h]
      exact ⟨(a :: t).getLast (by simp), List.getLast?_eq_getLast_of_ne_nil (by simp)⟩
    have hfix := trimChars_of_clean (trimChars cs) a b hh
      (trimChars_head_not_ws cs a hh) hb (trimChars_getLast_not_ws cs b hb)
    rw [h] at hfix
    exact hfix

/-- Every character of a join is the separator or comes from a group. -/
theorem mem_joinChars (sep : Char) :
    ∀ (gs : List (List Char)) (a : Char), a ∈ joinChars sep gs →
      a = sep ∨ ∃ g ∈ gs, a ∈ g
  | [], a, h => by simp [joinChars] at h
  | [g], a, h => by
    rw [joinChars_singleton] at h
    exact Or.inr ⟨g, by simp, h⟩
  | g :: g' :: gs, a, h => by
    rw [joinChars_cons_cons] at h
    rcases List.mem_append.mp h with h | h
    · exact Or.inr ⟨g, by simp, h⟩
    · rcases List.mem_cons.mp h with h | h
      · exact Or.inl h
      · rcases mem_joinChars sep (g' :: gs) a h with h | ⟨x, hx, ha⟩
        · exact Or.inl h
        · exact Or.inr ⟨x, List.mem_cons_of_mem _ hx, ha⟩

/-- A join of non-empty groups is non-empty. -/
theorem joinChars_ne_nil (sep : Char) :
    ∀ gs : List (List Char), gs ≠ [] → (∀ g ∈ gs, g ≠ []) →
      joinChars sep gs ≠ []
  | [], h, _ => absurd rfl h
  | [g], _, hall => by
    rw [joinChars_singleton]
    exact hall g (by simp)
  | g :: g' :: gs, _, hall => by
    rw [joinChars_cons_cons]
    simp

/-- The head of a join is the head of its first (non-empty) group. -/
theorem joinChars_head (sep : Char) :
    ∀ (gs : List (List Char)) (g : List Char), g ≠ [] →
      (joinChars sep (g :: gs)).head? = g.head?
  | [], g, _ => by rw [joinChars_singleton]
  | g' :: gs, g, h => by
    rw [joinChars_cons_cons]
    cases g with
    | nil => exact absurd rfl h
    | cons c t => rfl

/-- The last character of a join of non-empty groups is the last
character of the last group. -/
theorem joinChars_getLast (sep : Char) :
    ∀ (gs : List (List Char)) (g lg : List Char), (∀ x ∈ g :: gs, x ≠ []) →
      (g :: gs).getLast? = some lg →
      (joinChars sep (g :: gs)).getLast? = lg.getLast?
  | [], g, lg, _, hlast => by
    simp at hlast
    subst hlast
    rw [joinChars_singleton]
  | g' :: gs, g, lg, hall, hlast => by
    rw [List.getLast?_cons_cons] at hlast
    rw [joinChars_cons_cons, List.getLast?_append_cons]
    have hJ : joinChars sep (g' :: gs) ≠ [] :=
      joinChars_ne_nil sep (g' :: gs) (by simp)
        fun x hx => hall x (List.mem_cons_of_mem _ hx)
    cases hJc : joinChars sep (g' :: gs) with
    | nil => exact absurd hJc hJ
    | cons j js =>
      rw [List.getLast?_cons_cons, ← hJc]
      exact joinChars_getLast sep gs g' lg
        (fun x hx => hall x (List.mem_cons_of_mem _ hx)) hlast

/-! ### Well-formedness of parser output -/

/-- A non-empty string has a non-empty character list. -/
theorem data_ne_nil_of_ne_empty (s : String) (h : s ≠ "") : s.data ≠ [] := by
  intro hd
  apply h
  cases s with
  | mk data =>
    simp only at hd
    subst hd
    rfl

/-- The alternatives produced by the paths loop are well formed,
provided the path candidates contain no `'|'` and no `','`. -/
theorem parsePaths_ok_wf :
    ∀ (paths : List String) (pps : List (List String)),
      (∀ p ∈ paths, '|' ∉ p.data ∧ ',' ∉ p.data) →
      parsePaths paths = .ok pps →
      ∀ alt ∈ pps, AltOK alt
  | [], pps, _, h, alt, halt => by
    simp only [parsePaths] at h
    injection h with h
    subst h
    simp at halt
  | p :: rest, pps, hch, h, alt, halt => by
    simp only [parsePaths] at h
    split at h
    · exact parsePaths_ok_wf rest pps
        (fun q hq => hch q (List.mem_cons_of_mem _ hq)) h alt halt
    · split at h
      · cases h
      · rename_i hany
        split at h
        · cases h
        · rename_i r hr
          injection h with h
          subst h
          rcases List.mem_cons.mp halt with halt | halt
          · subst halt
            constructor
            · simp only [goSplit]
              intro hnil
              exact splitChars_ne_nil '.' p.data (by simpa using hnil)
            · intro s hs
              obtain ⟨g, hg, rfl⟩ := List.mem_map.mp hs
              constructor
              · intro hemp
                apply hany
                rw [List.any_eq_true]
                refine ⟨String.mk g, hs, ?_⟩
                rw [hemp]
                simp
              · intro c hc
                refine ⟨?_, ?_, ?_⟩
                · exact fun hce =>
                    (not_sep_of_mem_splitChars '.' p.data g hg) (hce ▸ hc)
                · exact fun hce => (hch p (by simp)).1
                    (hce ▸ mem_of_mem_splitChars '.' p.data g c hg hc)
                · exact fun hce => (hch p (by simp)).2
                    (hce ▸ mem_of_mem_splitChars '.' p.data g c hg hc)
          · exact parsePaths_ok_wf rest r
              (fun q hq => hch q (List.mem_cons_of_mem _ hq)) hr alt halt

/-- The options produced by the options loop are well formed, provided
the candidates contain no `','`. -/
theorem trimOpts_ok_wf :
    ∀ (os opts : List String),
      (∀ o ∈ os, ',' ∉ o.data) →
      trimOpts os = .ok opts →
      ∀ o ∈ opts, OptOK o
  | [], opts, _, h, o, ho => by
    simp only [trimOpts] at h
    injection h with h
    subst h
    simp at ho
  | o' :: rest, opts, hch, h, o, ho => by
    simp only [trimOpts] at h
    split at h
    · cases h
    · rename_i hne
      split at h
      · cases h
      · rename_i r hr
        injection h with h
        subst h
        rcases List.mem_cons.mp ho with ho | ho
        · subst ho
          refine ⟨hne, ?_, ?_⟩
          · intro c hc
            exact fun hce => (hch o' (by simp))
              (hce ▸ mem_of_mem_trimChars o'.data c hc)
          · exact trimChars_trimChars o'.data
        · exact trimOpts_ok_wf rest r
            (fun q hq => hch q (List.mem_cons_of_mem _ hq)) hr o ho

/-- Every tag accepted by `newSTag` is well formed. -/
theorem newSTag_ok_wf {raw : String} {t : STag}
    (h : newSTag raw = .ok t) : WfSTag t := by
  simp only [newSTag] at h
  split at h
  · cases h
  · rename_i pps hpp
    split at h
    · cases h
    · rename_i hne
      have hpath : ∀ p ∈ goSplit (goTrim (goSplitN2 raw ',').1) '|',
          '|' ∉ p.data ∧ ',' ∉ p.data := by
        intro p hp
        obtain ⟨g, hg, rfl⟩ := List.mem_map.mp hp
        refine ⟨not_sep_of_mem_splitChars '|' _ g hg, ?_⟩
        intro hc
        have hin := mem_of_mem_splitChars '|' _ g ',' hg hc
        have hin2 := mem_of_mem_trimChars _ ',' hin
        exact not_mem_splitN2Chars_fst ',' raw.data hin2
      have halts := parsePaths_ok_wf _ pps hpath hpp
      split at h
      · injection h with h
        subst h
        exact ⟨by simpa using hne, halts, by simp⟩
      · rename_i optsStr hsome
        split at h
        · cases h
        · rename_i opts hopts
          injection h with h
          subst h
          have hocs : ∀ o ∈ goSplit (goTrim optsStr) ',', ',' ∉ o.data := by
            intro o ho
            obtain ⟨g, hg, rfl⟩ := List.mem_map.mp ho
            exact not_sep_of_mem_splitChars ',' _ g hg
          exact ⟨by simpa using hne, halts, trimOpts_ok_wf _ opts hocs hopts⟩

/-! ### Re-parsing a re-serialized tag -/

/-- Character list of a rendered alternative. -/
theorem data_tagPathPartsString (alt : List String) :
    (tagPathPartsString alt).data = joinChars '.' (alt.map String.data) := rfl

/-- Character list of the rendered paths portion. -/
theorem data_tagPathsPartsString (pps : List (List String)) :
    (tagPathsPartsString pps).data =
      joinChars '|' (pps.map fun alt => joinChars '.' (alt.map String.data)) := by
  simp only [tagPathsPartsString, goJoin]
  rw [List.map_map]
  rfl

/-- A rendered well-formed alternative contains no `'|'`. -/
theorem rendered_path_no_pipe (alt : List String) (h : AltOK alt) :
    '|' ∉ joinChars '.' (alt.map String.data) := by
  intro hm
  rcases mem_joinChars '.' _ '|' hm with hc | ⟨g, hg, hcg⟩
  · exact absurd hc (by decide)
  · obtain ⟨s, hs, rfl⟩ := List.mem_map.mp hg
    exact ((h.2 s hs).2 '|' hcg).2.1 rfl

/-- A rendered well-formed alternative contains no `','`. -/
theorem rendered_path_no_comma (alt : List String) (h : AltOK alt) :
    ',' ∉ joinChars '.' (alt.map String.data) := by
  intro hm
  rcases mem_joinChars '.' _ ',' hm with hc | ⟨g, hg, hcg⟩
  · exact absurd hc (by decide)
  · obtain ⟨s, hs, rfl⟩ := List.mem_map.mp hg
    exact ((h.2 s hs).2 ',' hcg).2.2 rfl

/-- A rendered well-formed alternative is non-empty. -/
theorem rendered_path_ne_nil (alt : List String) (h : AltOK alt) :
    joinChars '.' (alt.map String.data) ≠ [] :=
  joinChars_ne_nil '.' (alt.map String.data)
    (fun hm => h.1 (by simpa using hm))
    (fun g hg => by
      obtain ⟨s, hs, rfl⟩ := List.mem_map.mp hg
      exact data_ne_nil_of_ne_empty s (h.2 s hs).1)

/-- The rendered paths portion contains no `','`. -/
theorem no_comma_tagPathsPartsString (pps : List (List String))
    (hall : ∀ alt ∈ pps, AltOK alt) :
    ',' ∉ (tagPathsPartsString pps).data := by
  rw [data_tagPathsPartsString]
  intro hm
  rcases mem_joinChars '|' _ ',' hm with hc | ⟨g, hg, hcg⟩
  · exact absurd hc (by decide)
  · obtain ⟨alt, halt, rfl⟩ := List.mem_map.mp hg
    exact rendered_path_no_comma alt (hall alt halt) hcg

/-- Rebuilding each string from its characters is the identity. -/
theorem map_mk_data : ∀ l : List String, l.map (String.mk ∘ String.data) = l
  | [] => rfl
  | s :: l => by
    rw [List.map_cons, map_mk_data l]
    rfl

/-- The paths loop accepts the rendering of well-formed alternatives and
returns them unchanged. -/
theorem parsePaths_render :
    ∀ pps : List (List String), (∀ alt ∈ pps, AltOK alt) →
      parsePaths (pps.map fun alt =>
        String.mk (joinChars '.' (alt.map String.data))) = .ok pps
  | [], _ => rfl
  | alt :: rest, hall => by
    have hA := hall alt (by simp)
    simp only [List.map_cons, parsePaths]
    have hne : ¬(String.mk (joinChars '.' (alt.map String.data)) = "") := by
      intro hemp
      have hd : joinChars '.' (alt.map String.data) = [] := by
        have := congrArg String.data hemp
        simpa using this
      exact rendered_path_ne_nil alt hA hd
    rw [if_neg hne]
    have hsegs : goSplit (String.mk (joinChars '.' (alt.map String.data))) '.' = alt := by
      simp only [goSplit]
      rw [splitChars_joinChars '.' (alt.map String.data)
        (fun hm => hA.1 (by simpa using hm))
        (fun g hg => by
          obtain ⟨s, hs, rfl⟩ := List.mem_map.mp hg
          intro hc
          exact ((hA.2 s hs).2 '.' hc).1 rfl)]
      rw [List.map_map]
      exact map_mk_data alt
    rw [hsegs]
    have hany : (alt.any fun seg => seg = "") = false := by
      rw [List.any_eq_false]
      intro s hs
      simp only [decide_eq_true_eq]
      exact (hA.2 s hs).1
    rw [hany]
    simp only [Bool.false_eq_true, if_false]
    rw [parsePaths_render rest fun a ha => hall a (List.mem_cons_of_mem _ ha)]

/-- The options loop maps already well-formed options to themselves. -/
theorem trimOpts_fixed :
    ∀ opts : List String, (∀ o ∈ opts, OptOK o) → trimOpts opts = .ok opts
  | [], _ => rfl
  | o :: rest, hall => by
    have hO := hall o (by simp)
    simp only [trimOpts]
    have ht : goTrim o = o := by
      show String.mk (trimChars o.data) = o
      rw [hO.2.2]
    rw [ht, if_neg hO.1,
      trimOpts_fixed rest fun x hx => hall x (List.mem_cons_of_mem _ hx)]

/-- A list's last element is a member (specialized to strings). -/
theorem mem_of_getLast_str : ∀ (l : List String) (a : String),
    l.getLast? = some a → a ∈ l
  | [], a, h => by simp at h
  | [x], a, h => by
    simp at h
    subst h
    simp
  | x :: y :: l, a, h => by
    rw [List.getLast?_cons_cons] at h
    exact List.mem_cons_of_mem _ (mem_of_getLast_str (y :: l) a h)

/-- The comma-join of well-formed options is already trimmed. -/
theorem opts_join_trim_fixed (opts : List String) (hne : opts ≠ [])
    (hall : ∀ o ∈ opts, OptOK o) :
    trimChars (goJoin ',' opts).data = (goJoin ',' opts).data := by
  cases opts with
  | nil => exact absurd rfl hne
  | cons o os =>
    have hO := hall o (by simp)
    have hod : o.data ≠ [] := data_ne_nil_of_ne_empty o hO.1
    have hdata : (goJoin ',' (o :: os)).data = joinChars ',' ((o :: os).map String.data) := rfl
    rw [hdata]
    obtain ⟨c, hc⟩ : ∃ c, o.data.head? = some c := by
      cases hd : o.data with
      | nil => exact absurd hd hod
      | cons x xs => exact ⟨x, rfl⟩
    have hhead : (joinChars ',' ((o :: os).map String.data)).head? = some c := by
      rw [show (o :: os).map String.data = o.data :: os.map String.data from rfl]
      rw [joinChars_head ',' (os.map String.data) o.data hod]
      exact hc
    have hcw : c.isWhitespace = false := by
      apply trimChars_head_not_ws o.data
      rw [hO.2.2]
      exact hc
    obtain ⟨lo, hlo⟩ : ∃ lo, (o :: os).getLast? = some lo := by
      cases hd : (o :: os).getLast? with
      | none => simp at hd
      | some x => exact ⟨x, rfl⟩
    have hLO := hall lo (mem_of_getLast_str (o :: os) lo hlo)
    have hlod : lo.data ≠ [] := data_ne_nil_of_ne_empty lo hLO.1
    obtain ⟨b, hb⟩ : ∃ b, lo.data.getLast? = some b := by
      cases hd : lo.data.getLast? with
      | none => exact absurd (List.getLast?_eq_none_iff.mp hd) hlod
      | some x => exact ⟨x, rfl⟩
    have hlast : (joinChars ',' ((o :: os).map String.data)).getLast? = some b := by
      rw [show (o :: os).map String.data = o.data :: os.map String.data from rfl]
      rw [joinChars_getLast ',' (os.map String.data) o.data lo.data
        (fun x hx => by
          rw [show o.data :: os.map String.data = (o :: os).map String.data from rfl] at hx
          obtain ⟨s, hs, rfl⟩ := List.mem_map.mp hx
          exact data_ne_nil_of_ne_empty s (hall s hs).1)
        (by
          rw [show o.data :: os.map String.data = (o :: os).map String.data from rfl,
            List.getLast?_map, hlo]
          rfl)]
      exact hb
    have hbw : b.isWhitespace = false := by
      apply trimChars_getLast_not_ws lo.data
      rw [hLO.2.2]
      exact hb
    exact trimChars_of_clean _ c b hhead hcw hlast hbw

/-- Splitting the comma-join of well-formed options recovers them. -/
theorem opts_split_join (opts : List String) (hne : opts ≠ [])
    (hall : ∀ o ∈ opts, OptOK o) :
    goSplit (goJoin ',' opts) ',' = opts := by
  simp only [goSplit]
  rw [show (goJoin ',' opts).data = joinChars ',' (opts.map String.data) from rfl]
  rw [splitChars_joinChars ',' (opts.map String.data)
    (fun hm => hne (by simpa using hm))
    (fun g hg => by
      obtain ⟨s, hs, rfl⟩ := List.mem_map.mp hg
      exact fun hc => (hall s hs).2.1 ',' hc rfl)]
  rw [List.map_map]
  exact map_mk_data opts

/-- Re-parsing the rendering of a well-formed tag whose rendered paths
portion carries no leading or trailing whitespace yields the same tag. -/
theorem newSTag_toString_of_wf (pps : List (List String)) (opts : List String)
    (hne : pps ≠ []) (halts : ∀ alt ∈ pps, AltOK alt)
    (hopts : ∀ o ∈ opts, OptOK o)
    (hws : goTrim (tagPathsPartsString pps) = tagPathsPartsString pps) :
    newSTag (STag.toString ⟨pps, opts⟩) = .ok ⟨pps, opts⟩ := by
  have hPnc : ',' ∉ (tagPathsPartsString pps).data :=
    no_comma_tagPathsPartsString pps halts
  have hparse : parsePaths (goSplit (tagPathsPartsString pps) '|') = .ok pps := by
    have hsp : goSplit (tagPathsPartsString pps) '|' =
        pps.map fun alt => String.mk (joinChars '.' (alt.map String.data)) := by
      simp only [goSplit]
      rw [data_tagPathsPartsString]
      rw [splitChars_joinChars '|'
        (pps.map fun alt => joinChars '.' (alt.map String.data))
        (fun hm => hne (by simpa using hm))
        (fun g hg => by
          obtain ⟨alt, halt, rfl⟩ := List.mem_map.mp hg
          exact rendered_path_no_pipe alt (halts alt halt))]
      rw [List.map_map]
      rfl
    rw [hsp]
    exact parsePaths_render pps halts
  have hie : pps.isEmpty = false := by
    cases hpp : pps with
    | nil => exact absurd hpp hne
    | cons a l => rfl
  cases opts with
  | nil =>
    have htos : STag.toString ⟨pps, []⟩ = tagPathsPartsString pps := rfl
    rw [htos]
    simp only [newSTag]
    have h1 : goSplitN2 (tagPathsPartsString pps) ',' =
        (tagPathsPartsString pps, none) := by
      simp only [goSplitN2]
      rw [splitN2Chars_of_not_mem ',' _ hPnc]
      rfl
    rw [h1]
    dsimp only
    rw [hws, hparse]
    dsimp only
    rw [hie]
    simp only [Bool.false_eq_true, if_false]
  | cons o os =>
    have hone : (o :: os : List String) ≠ [] := by simp
    have htos : STag.toString ⟨pps, o :: os⟩ =
        tagPathsPartsString pps ++ "," ++ goJoin ',' (o :: os) := rfl
    rw [htos]
    simp only [newSTag]
    have hdata : (tagPathsPartsString pps ++ "," ++ goJoin ',' (o :: os)).data
        = (tagPathsPartsString pps).data ++ ',' :: (goJoin ',' (o :: os)).data := by
      show ((tagPathsPartsString pps).data ++ [',']) ++ (goJoin ',' (o :: os)).data = _
      rw [List.append_assoc]
      rfl
    have h1 : goSplitN2 (tagPathsPartsString pps ++ "," ++ goJoin ',' (o :: os)) ','
        = (tagPathsPartsString pps, some (goJoin ',' (o :: os))) := by
      simp only [goSplitN2]
      rw [hdata, splitN2Chars_append ',' _ _ hPnc]
      rfl
    rw [h1]
    dsimp only
    rw [hws, hparse]
    dsimp only
    rw [hie]
    simp only [Bool.false_eq_true, if_false]
    have hOt : goTrim (goJoin ',' (o :: os)) = goJoin ',' (o :: os) := by
      show String.mk (trimChars (goJoin ',' (o :: os)).data) = _
      rw [opts_join_trim_fixed (o :: os) hone hopts]
    rw [hOt, opts_split_join (o :: os) hone hopts, trimOpts_fixed (o :: os) hopts]

/-! ### Claim theorems -/

/-- C5: parsing classifies raw tags as follows: `""`, `"|"` and `"||"`
fail with the empty-tag error; `"Foo..Bar"`, `"Foo."` and `".Foo"` (an
alternative containing an empty dot-segment) fail with the malformed-tag
error; empty alternative candidates produced by doubled, leading or
trailing `"|"` separators are silently dropped while the remaining
alternatives parse, so `"A.B||C.D"` yields exactly the two alternatives
`A.B` and `C.D`. -/
theorem newSTag_classification :
    newSTag "" = .error .errTagEmpty ∧
    newSTag "|" = .error .errTagEmpty ∧
    newSTag "||" = .error .errTagEmpty ∧
    newSTag "Foo..Bar" = .error .errTagInvalid ∧
    newSTag "Foo." = .error .errTagInvalid ∧
    newSTag ".Foo" = .error .errTagInvalid ∧
    newSTag "A.B||C.D" = .ok ⟨[["A", "B"], ["C", "D"]], []⟩ ∧
    newSTag "|A.B" = .ok ⟨[["A", "B"]], []⟩ ∧
    newSTag "A.B|" = .ok ⟨[["A", "B"]], []⟩ :=
  ⟨rfl, rfl, rfl, rfl, rfl, rfl, rfl, rfl, rfl⟩

/-- C6: when the destination is not a non-nil pointer to a struct,
`Merge` returns `ErrDstInvalid`; when the destination is acceptable but
the source is neither a struct nor a non-nil pointer to a struct,
`Merge` returns `ErrSrcInvalid`; in both cases the destination value is
returned entirely unmodified, before any field processing. -/
theorem merge_validation_errors (hyd : GoType → String → Except String GoVal)
    (dst src : GoVal) :
    (validDstShape dst = false → Merge hyd dst src = (dst, some .errDstInvalid)) ∧
    (validDstShape dst = true → validSrcShape src = false →
      Merge hyd dst src = (dst, some .errSrcInvalid)) := by
  constructor
  · intro h
    match dst with
    | .string _ | .int _ | .bool _ | .map _ _ _ | .slice _ _ | .struct _ _ _
    | .ptr _ none =>
      simp [Merge, makeDstValue]
    | .ptr t (some v) =>
      match v with
      | .string _ | .int _ | .bool _ | .map _ _ _ | .slice _ _ | .ptr _ _ =>
        simp [Merge, makeDstValue]
      | .struct _ _ _ => simp [validDstShape] at h
  · intro hd hs
    match dst with
    | .string _ | .int _ | .bool _ | .map _ _ _ | .slice _ _ | .struct _ _ _
    | .ptr _ none =>
      simp [validDstShape] at hd
    | .ptr t (some (.string _)) | .ptr t (some (.int _)) | .ptr t (some (.bool _))
    | .ptr t (some (.map _ _ _)) | .ptr t (some (.slice _ _)) | .ptr t (some (.ptr _ _)) =>
      simp [validDstShape] at hd
    | .ptr t (some (.struct n fs ms)) =>
      match src with
      | .string _ | .int _ | .bool _ | .map _ _ _ | .slice _ _ =>
        simp [Merge, makeDstValue, makeSrcValue]
      | .struct _ _ _ => simp [validSrcShape] at hs
      | .ptr _ none => simp [Merge, makeDstValue, makeSrcValue]
      | .ptr _ (some w) =>
        match w with
        | .string _ | .int _ | .bool _ | .map _ _ _ | .slice _ _ | .ptr _ _ =>
          simp [Merge, makeDstValue, makeSrcValue]
        | .struct _ _ _ => simp [validSrcShape] at hs

/-- C6 witness: a non-pointer destination is rejected with
`ErrDstInvalid`, and a nil-pointer source is rejected with
`ErrSrcInvalid`, the destination coming back unmodified. -/
theorem merge_validation_errors_witness :
    (validDstShape (.int 3) = false ∧
      Merge (fun _ _ => .error "") (.int 3) (.struct "S" [] []) =
        (.int 3, some .errDstInvalid)) ∧
    (validDstShape (.ptr (.named "C") (some (.struct "C" [] []))) = true ∧
      validSrcShape (.ptr (.named "S") none) = false ∧
      Merge (fun _ _ => .error "") (.ptr (.named "C") (some (.struct "C" [] [])))
          (.ptr (.named "S") none) =
        (.ptr (.named "C") (some (.struct "C" [] [])), some .errSrcInvalid)) :=
  ⟨⟨rfl, (merge_validation_errors (fun _ _ => .error "") (.int 3) (.struct "S" [] [])).1 rfl⟩,
   ⟨rfl, rfl,
    (merge_validation_errors (fun _ _ => .error "") (.ptr (.named "C") (some (.struct "C" [] [])))
      (.ptr (.named "S") none)).2 rfl rfl⟩⟩

/-- C3: a path alternative whose traversal reaches a nil pointer with
segments still to consume resolves to the not-applicable signal
`errKeepLooking` (never a terminal error), and the selection loop reacts
to a not-applicable alternative by moving on to the next alternative
unchanged. -/
theorem lookUp_nil_pointer_not_applicable :
    (∀ (t : GoType) (part : String) (rest : List String),
      lookUpLoop (.ptr t none) (part :: rest) = .error .errKeepLooking) ∧
    (∀ (srcVal : GoVal) (sz : Bool) (d : String) (p : List String)
      (ps : List (List String)) (acc : Option GoVal),
      lookUpField srcVal p = .error .errKeepLooking →
      selectValue srcVal sz d (p :: ps) acc = selectValue srcVal sz d ps acc) := by
  refine ⟨fun t part rest => rfl, fun srcVal sz d p ps acc h => ?_⟩
  rw [selectValue, h]

/-- C3 witness: the alternative `InnerPtr.URL` over a source whose
`InnerPtr` is nil resolves to `errKeepLooking`, and the selection loop
skips that alternative. -/
theorem lookUp_nil_pointer_not_applicable_witness :
    lookUpLoop (.ptr (.named "Inner") none) ["URL"] = .error .errKeepLooking ∧
    (lookUpField exSrcNilPtr ["InnerPtr", "URL"] = .error .errKeepLooking ∧
      selectValue exSrcNilPtr false "string" [["InnerPtr", "URL"], ["B"]] none =
        selectValue exSrcNilPtr false "string" [["B"]] none) :=
  ⟨lookUp_nil_pointer_not_applicable.1 (.named "Inner") "URL" [],
   rfl,
   lookUp_nil_pointer_not_applicable.2 exSrcNilPtr false "string"
     ["InnerPtr", "URL"] [["B"]] none rfl⟩

/-- C2: for a tagged destination field whose parsed tag's alternatives
all resolve to the not-applicable signal, `mergeField` adopts no
candidate and reports success with no new value, and the field loop
leaves the field at its existing value, contributing no error. -/
theorem merge_total_miss_keeps_field (hyd : GoType → String → Except String GoVal)
    (srcVal : GoVal) (name raw : String) (v : GoVal) (tag : STag)
    (hparse : newSTag raw = .ok tag)
    (hmiss : ∀ p ∈ tag.pathsParts, lookUpField srcVal p = .error .errKeepLooking) :
    mergeField hyd v srcVal tag = .ok none ∧
    ∀ rest, mergeFieldsLoop hyd srcVal (.mk name (some raw) v :: rest) =
      (.mk name (some raw) v :: (mergeFieldsLoop hyd srcVal rest).1,
        (mergeFieldsLoop hyd srcVal rest).2) := by
  have hne := newSTag_ok_nonempty hparse
  have hie : tag.pathsParts.isEmpty = false := by
    cases hpp : tag.pathsParts with
    | nil => exact absurd hpp hne
    | cons a l => rfl
  have hsel : selectValue srcVal tag.hasSkipZero (goTypeString (typeOf v))
      tag.pathsParts none = .ok none :=
    selectValue_skip_all _ _ _ _ _ fun p hp => Or.inl (hmiss p hp)
  have hmf : mergeField hyd v srcVal tag = .ok none := by
    simp only [mergeField, hie, Bool.false_eq_true, if_false, hsel]
  refine ⟨hmf, fun rest => ?_⟩
  simp only [mergeFieldsLoop, hparse, hmf]

/-- C2 witness: the spec's end-to-end scenario: a field tagged
`"EV.Data.key"` over a source whose map has no `"key"` entry keeps its
pre-merge value `"old"` and the whole merge returns no error. -/
theorem merge_total_miss_keeps_field_witness :
    newSTag "EV.Data.key" = .ok ⟨[["EV", "Data", "key"]], []⟩ ∧
    mergeField exHyd (.string "old") exSrcMissingKey ⟨[["EV", "Data", "key"]], []⟩ = .ok none ∧
    Merge exHyd exDstMapConfig exSrcMissingKey = (exDstMapConfig, none) :=
  ⟨rfl,
   (merge_total_miss_keeps_field exHyd exSrcMissingKey "Value" "EV.Data.key"
     (.string "old") ⟨[["EV", "Data", "key"]], []⟩ rfl
     (by intro p hp; simp at hp; subst hp; rfl)).1,
   rfl⟩

/-- C4: for a tag carrying the `skipzero` option whose alternatives all
resolve to zero values of their types, no candidate is adopted during
selection, so `mergeField` reports success with no new value and the
field keeps its pre-merge value. -/
theorem mergeField_skipzero_all_zero (hyd : GoType → String → Except String GoVal)
    (dstV srcVal : GoVal) (tag : STag)
    (hsz : tag.hasSkipZero = true)
    (hne : tag.pathsParts ≠ [])
    (hz : ∀ p ∈ tag.pathsParts, ∃ v, lookUpField srcVal p = .ok v ∧ isZero v = true) :
    mergeField hyd dstV srcVal tag = .ok none := by
  have hie : tag.pathsParts.isEmpty = false := by
    cases hpp : tag.pathsParts with
    | nil => exact absurd hpp hne
    | cons a l => rfl
  have hsel : selectValue srcVal tag.hasSkipZero (goTypeString (typeOf dstV))
      tag.pathsParts none = .ok none :=
    selectValue_skip_all _ _ _ _ _ fun p hp =>
      (hz p hp).elim fun v hv => Or.inr ⟨v, hv.1, hsz, hv.2⟩
  simp only [mergeField, hie, Bool.false_eq_true, if_false, hsel]

/-- C4 witness: the spec's skipzero scenario: tag
`"EV.Count|FV.Count,skipzero"` with both counts zero leaves the
destination field at its pre-merge value `7` and the merge returns no
error. -/
theorem mergeField_skipzero_all_zero_witness :
    mergeField exHyd (.int 7) exSrcZeroCounts
      ⟨[["EV", "Count"], ["FV", "Count"]], ["skipzero"]⟩ = .ok none ∧
    Merge exHyd exDstSkipZero exSrcZeroCounts = (exDstSkipZero, none) :=
  ⟨mergeField_skipzero_all_zero exHyd (.int 7) exSrcZeroCounts
     ⟨[["EV", "Count"], ["FV", "Count"]], ["skipzero"]⟩ rfl (by simp)
     (by
       intro p hp
       simp at hp
       rcases hp with h | h <;> subst h
       · exact ⟨.int 0, rfl, rfl⟩
       · exact ⟨.int 0, rfl, rfl⟩),
   rfl⟩

/-- C1: when the alternatives of a tag hit no terminal resolution error
and at least one resolves to a non-skipped value, the field receives the
value of the last such alternative in tag order (last-wins): the merged
value is the last entry of the resolved, non-skipped candidate list. -/
theorem mergeField_last_wins (hyd : GoType → String → Except String GoVal)
    (dstV srcVal : GoVal) (tag : STag) (v : GoVal)
    (hne : tag.pathsParts ≠ [])
    (hnoterm : ∀ p ∈ tag.pathsParts, ∀ e,
      lookUpField srcVal p = .error e → e = .errKeepLooking)
    (hlast : (resolvedCandidates srcVal tag.hasSkipZero tag.pathsParts).getLast? = some v)
    (hnohyd : tag.hasHydrate = false)
    (hty : typeOf v = typeOf dstV) :
    mergeField hyd dstV srcVal tag = .ok (some v) := by
  have hie : tag.pathsParts.isEmpty = false := by
    cases hpp : tag.pathsParts with
    | nil => exact absurd hpp hne
    | cons a l => rfl
  have hsel := selectValue_eq_lastAdopted srcVal tag.hasSkipZero
    (goTypeString (typeOf dstV)) tag.pathsParts none hnoterm
  rw [lastAdopted_of_getLast _ _ _ hlast] at hsel
  have hh : hydrateStep hyd tag (typeOf dstV) v = .ok v := by
    simp only [hydrateStep, hnohyd, Bool.false_eq_true, if_false]
  simp only [mergeField, hie, Bool.false_eq_true, if_false, hsel, hh, hty, if_true]

/-- C1 witness: the claim's own example: tag `"A|B"` with `A` resolving
to `"x"` and `B` to `"y"` merges `"y"` into the field, both at the
`mergeField` level (by the theorem) and end to end through `Merge`. -/
theorem mergeField_last_wins_witness :
    mergeField exHyd (.string "") exSrcAB ⟨[["A"], ["B"]], []⟩ = .ok (some (.string "y")) ∧
    Merge exHyd exDstAB exSrcAB =
      (.ptr (.named "ConfigAB") (some (.struct "ConfigAB"
        [.mk "F" (some "A|B") (.string "y")] [])), none) :=
  ⟨mergeField_last_wins exHyd (.string "") exSrcAB ⟨[["A"], ["B"]], []⟩ (.string "y")
    (by simp)
    (by
      intro p hp e h
      simp at hp
      rcases hp with h1 | h1 <;> subst h1 <;>
        rw [show lookUpField exSrcAB _ = _ from rfl] at h <;> cases h)
    rfl rfl rfl,
   rfl⟩

/-- C7: when selection adopts a candidate whose (possibly hydrated)
value has a type different from the destination field's declared type,
`mergeField` returns the type-incompatibility error carrying the tag
text, the destination type name and the source type name, and produces
no assignment. -/
theorem mergeField_type_incompatible (hyd : GoType → String → Except String GoVal)
    (dstV srcVal : GoVal) (tag : STag) (v fv : GoVal)
    (hne : tag.pathsParts ≠ [])
    (hsel : selectValue srcVal tag.hasSkipZero (goTypeString (typeOf dstV))
      tag.pathsParts none = .ok (some v))
    (hhyd : hydrateStep hyd tag (typeOf dstV) v = .ok fv)
    (hty : ¬typeOf fv = typeOf dstV) :
    mergeField hyd dstV srcVal tag =
      .error (.mergeFieldError .errFieldTypesIncompatible tag.toString
        (goTypeString (typeOf dstV)) (goTypeString (typeOf fv))) := by
  have hie : tag.pathsParts.isEmpty = false := by
    cases hpp : tag.pathsParts with
    | nil => exact absurd hpp hne
    | cons a l => rfl
  simp only [mergeField, hie, Bool.false_eq_true, if_false, hsel, hhyd, hty, if_false]

/-- C7 witness: an int destination field tagged `"FV.Extra"` over a
source whose `FV.Extra` is a string fails with the incompatibility
error carrying the tag text `"FV.Extra"` and the type names `"int"` and
`"string"`; end to end, `Merge` returns that error and leaves the field
unassigned. -/
theorem mergeField_type_incompatible_witness :
    mergeField exHyd (.int 0) exSrcExtra ⟨[["FV", "Extra"]], []⟩ =
      .error (.mergeFieldError .errFieldTypesIncompatible "FV.Extra" "int" "string") ∧
    Merge exHyd exDstIntExtra exSrcExtra =
      (exDstIntExtra,
        some (.mergeFieldError .errFieldTypesIncompatible "FV.Extra" "int" "string")) :=
  ⟨mergeField_type_incompatible exHyd (.int 0) exSrcExtra ⟨[["FV", "Extra"]], []⟩
    (.string "file-extra") (.string "file-extra") (by decide) rfl rfl (by decide),
   rfl⟩

/-- C10: whenever the processing of one tagged field fails — for any of
the failure modes `fieldFailure` captures: tag-parse failure, terminal
resolution failure, hydration failure or type incompatibility — the
field loop returns that field still holding its pre-merge value (and all
later fields untouched) together with the error: assignment is the final
step and is never reached on a failing field. -/
theorem mergeField_error_keeps_field (hyd : GoType → String → Except String GoVal)
    (srcVal : GoVal) (name raw : String) (v : GoVal) (rest : List GoField)
    (e : SmapError)
    (h : fieldFailure hyd srcVal (.mk name (some raw) v) = some e) :
    mergeFieldsLoop hyd srcVal (.mk name (some raw) v :: rest) =
      (.mk name (some raw) v :: rest, some e) :=
  mergeFieldsLoop_fail_head hyd srcVal name raw v rest e h

/-- C10 witness: the int field tagged `"FV.Extra"` fails its type check,
and the field loop returns it unchanged (value still `0`) with the
incompatibility error. -/
theorem mergeField_error_keeps_field_witness :
    mergeFieldsLoop exHyd exSrcExtra [.mk "Extra" (some "FV.Extra") (.int 0)] =
      ([.mk "Extra" (some "FV.Extra") (.int 0)],
        some (.mergeFieldError .errFieldTypesIncompatible "FV.Extra" "int" "string")) :=
  mergeField_error_keeps_field exHyd exSrcExtra "Extra" "FV.Extra" (.int 0) []
    (.mergeFieldError .errFieldTypesIncompatible "FV.Extra" "int" "string") rfl

/-- C9: the field loop visits the destination's fields in declaration
order and in place — the output has the same length and every position
keeps its field's name and tag; a field carrying no smap tag is never
modified; and when the first failing field sits at position `k`, the
merge stops there: the output is the processed prefix before `k`
(earlier assignments kept, not rolled back) followed by the fields from
`k` on unchanged, together with that first error. -/
theorem mergeFields_orchestration (hyd : GoType → String → Except String GoVal)
    (srcVal : GoVal) (fields : List GoField) :
    ((mergeFieldsLoop hyd srcVal fields).1.length = fields.length) ∧
    (∀ (i : Nat) (f : GoField), fields[i]? = some f → ∃ f' : GoField,
      (mergeFieldsLoop hyd srcVal fields).1[i]? = some f' ∧
      f'.name = f.name ∧ f'.tag = f.tag) ∧
    (∀ (i : Nat) (name : String) (v : GoVal), fields[i]? = some (.mk name none v) →
      (mergeFieldsLoop hyd srcVal fields).1[i]? = some (.mk name none v)) ∧
    (∀ (k : Nat) (fk : GoField) (e : SmapError),
      (∀ j fj, j < k → fields[j]? = some fj → fieldFailure hyd srcVal fj = none) →
      fields[k]? = some fk → fieldFailure hyd srcVal fk = some e →
      mergeFieldsLoop hyd srcVal fields =
        ((mergeFieldsLoop hyd srcVal (fields.take k)).1 ++ fields.drop k, some e)) :=
  ⟨mergeFieldsLoop_length hyd srcVal fields,
   fun i f h => mergeFieldsLoop_index hyd srcVal fields i f h,
   fun i name v h => mergeFieldsLoop_untagged hyd srcVal fields i name v h,
   fun k fk e hpre hk hf =>
     mergeFieldsLoop_first_error hyd srcVal fields k fk e hpre hk hf⟩

/-- C9 witness: in a two-field destination whose first field merges
`"env-url"` and whose second fails its type check, the loop stops at the
second field, keeps the first field's new value (no rollback), returns
the second field unchanged, and end to end `Merge` reports the error
with the first field's assignment in place. -/
theorem mergeFields_orchestration_witness :
    mergeFieldsLoop exHyd exSrcMismatch
        [.mk "AISvcURL" (some "EV.AISvcURL") (.string ""),
         .mk "Extra" (some "FV.Extra") (.int 0)] =
      ((mergeFieldsLoop exHyd exSrcMismatch
          [.mk "AISvcURL" (some "EV.AISvcURL") (.string "")]).1 ++
        [.mk "Extra" (some "FV.Extra") (.int 0)],
        some (.mergeFieldError .errFieldTypesIncompatible "FV.Extra" "int" "string")) ∧
    (mergeFieldsLoop exHyd exSrcMismatch
        [.mk "AISvcURL" (some "EV.AISvcURL") (.string "")]).1 =
      [.mk "AISvcURL" (some "EV.AISvcURL") (.string "env-url")] ∧
    Merge exHyd exDstMismatch exSrcMismatch =
      (.ptr (.named "ConfigMismatch") (some (.struct "ConfigMismatch"
        [.mk "AISvcURL" (some "EV.AISvcURL") (.string "env-url"),
         .mk "Extra" (some "FV.Extra") (.int 0)] [])),
        some (.mergeFieldError .errFieldTypesIncompatible "FV.Extra" "int" "string")) :=
  ⟨(mergeFields_orchestration exHyd exSrcMismatch
      [.mk "AISvcURL" (some "EV.AISvcURL") (.string ""),
       .mk "Extra" (some "FV.Extra") (.int 0)]).2.2.2 1
      (.mk "Extra" (some "FV.Extra") (.int 0))
      (.mergeFieldError .errFieldTypesIncompatible "FV.Extra" "int" "string")
      (by
        intro j fj hj hjf
        have hj0 : j = 0 := by omega
        subst hj0
        rw [List.getElem?_cons_zero] at hjf
        rw [← Option.some.inj hjf]
        rfl)
      rfl rfl,
   rfl,
   rfl⟩

/-- C8 (amended): re-serializing a successfully parsed tag and parsing
the result again yields the same expression — the same ordered list of
path alternatives with their segments and the same options — provided
the re-serialized paths portion carries no leading or trailing
whitespace.  (That proviso always holds unless an empty alternative
candidate was dropped next to the raw tag's leading or trailing
whitespace, the case the counterexample exhibits.) -/
theorem newSTag_roundTrip (raw : String) (t : STag)
    (hparse : newSTag raw = .ok t)
    (hws : goTrim (tagPathsPartsString t.pathsParts) = tagPathsPartsString t.pathsParts) :
    newSTag t.toString = .ok t := by
  obtain ⟨hne, halts, hopts⟩ := newSTag_ok_wf hparse
  obtain ⟨pps, opts⟩ := t
  exact newSTag_toString_of_wf pps opts hne halts hopts hws

/-- C8 counterexample: the tag `"| A"` parses successfully (its leading
empty alternative candidate is dropped) to the single alternative with
segment `" A"`; it re-serializes to `" A"`, which re-parses — after the
paths portion is trimmed — to the different segment `"A"`.  So parsing
then re-serializing then parsing is not the identity on all successfully
parsed tags, refuting the claim as universally stated. -/
theorem newSTag_roundTrip_cex :
    newSTag "| A" = .ok ⟨[[" A"]], []⟩ ∧
    STag.toString ⟨[[" A"]], []⟩ = " A" ∧
    newSTag " A" = .ok ⟨[["A"]], []⟩ ∧
    (⟨[[" A"]], []⟩ : STag) ≠ ⟨[["A"]], []⟩ :=
  ⟨rfl, rfl, rfl, by decide⟩

/-- C8 witness: the spec's own example `"EV.URL|FV.Service.URL,hydrate"`
parses, meets the whitespace proviso, and round-trips to the identical
expression. -/
theorem newSTag_roundTrip_witness :
    newSTag "EV.URL|FV.Service.URL,hydrate" =
      .ok ⟨[["EV", "URL"], ["FV", "Service", "URL"]], ["hydrate"]⟩ ∧
    newSTag (STag.toString ⟨[["EV", "URL"], ["FV", "Service", "URL"]], ["hydrate"]⟩) =
      .ok ⟨[["EV", "URL"], ["FV", "Service", "URL"]], ["hydrate"]⟩ :=
  ⟨rfl,
   newSTag_roundTrip "EV.URL|FV.Service.URL,hydrate"
     ⟨[["EV", "URL"], ["FV", "Service", "URL"]], ["hydrate"]⟩ rfl rfl⟩

end Smap
